import Mathlib

/-!
# goexplorer: the `gopathHandler` of `node.go`

A shallow embedding of `gopathHandler` (node.go, lines 44-225) and the
properties of its three modes: directory listing, extraction of the
package-level declarations and imports of one file, and enumeration of the
functions and interface members bound to a receiver name.

The operating system, `go/parser`, `go/build` and the path arithmetic of
`path/filepath` that depends on `Clean` are collaborators of the handler; they
enter the model as the fields of `Env`.  The small pure helpers
(`strings.HasPrefix`, `filepath.Base`, `filepath.Ext`, `fmt.Sprint` of a
position, `ObjKind.String`) are modelled concretely, for Unix paths.
-/

set_option autoImplicit false

namespace GoExplorer

/-! ## Strings and paths -/

/-- Model of `strings.HasPrefix(s, p)`. -/
def HasPrefix (s p : String) : Bool :=
  p.data.isPrefixOf s.data

/-- Model of `os.IsPathSeparator` on Unix. -/
def IsPathSeparator (c : Char) : Bool :=
  c == '/'

/-- The backward scan of `filepath.Ext`: `rev` is what is left of the path,
last character first, `acc` the characters already passed.  The scan stops
with the empty extension at a separator and with the suffix at a dot. -/
def extScan : List Char → List Char → List Char
  | [], _ => []
  | c :: rev, acc =>
    if IsPathSeparator c then []
    else if c == '.' then c :: acc
    else extScan rev (c :: acc)

/-- Model of `filepath.Ext`: the suffix of the last path element from its
last dot on, or the empty string. -/
def Ext (path : String) : String :=
  ⟨extScan path.data.reverse []⟩

/-- Model of `filepath.Base` on Unix: trailing separators are stripped, the
last element is returned; the empty path gives ".", a path of separators only
gives "/". -/
def Base (path : String) : String :=
  if path.data = [] then "."
  else
    let stripped := (path.data.reverse.dropWhile IsPathSeparator).reverse
    let last := (stripped.reverse.takeWhile (fun c => !IsPathSeparator c)).reverse
    if last = [] then "/" else ⟨last⟩

/-- Model of `fmt.Sprint` applied to a `token.Pos`: the decimal numeral. -/
def Sprint (p : Nat) : String :=
  Nat.repr p

/-- Model of `fmt.Sprintf("<code>%s</code>\n%s", a, b)`. -/
def Sprintf (a b : String) : String :=
  "<code>" ++ a ++ "</code>\n" ++ b

/-! ## The node record -/

/-- The Go type `NodeType` is a string type. -/
abbrev NodeType := String

def TopLevel : NodeType := "topLevel"
def Folder : NodeType := "folder"
def Source : NodeType := "source"
def Package : NodeType := "package"
def Program : NodeType := "program"
def Object : NodeType := "object"

/-- The record `node` of node.go; a field left out of a composite literal has
its zero value.  The Go field `Type` is `Typ` here. -/
structure node where
  Typ : NodeType := ""
  Kind : String := ""
  Name : String := ""
  Loc : String := ""
  Dir : String := ""
  Id : String := ""
  Label : String := ""
  Value : Int := 0
deriving DecidableEq, Repr

/-! ## The part of `go/ast` the handler inspects -/

namespace ast

/-- An `ast.Ident`. -/
structure Ident where
  NamePos : Nat
  Name : String
deriving DecidableEq, Repr

/-- The shapes of a receiver's type that the handler's type switch tells
apart: `*ast.Ident`, `*ast.StarExpr`, and every other expression. -/
inductive Expr where
  | Ident (id : ast.Ident)
  | StarExpr (Star : Nat) (X : Expr)
  | Other (pos : Nat)
deriving DecidableEq, Repr

/-- Model of `Pos()` for an expression. -/
def Expr.Pos : Expr → Nat
  | .Ident id => id.NamePos
  | .StarExpr star _ => star
  | .Other pos => pos

/-- An `ast.Field`: a receiver, or a member of an interface's method list (no
name when the member is embedded). -/
structure Field where
  Names : List Ident
  Typ : Expr
deriving DecidableEq, Repr

/-- Model of `(*ast.Field).Pos`: the position of the first name, or of the
type when there is no name. -/
def Field.Pos (f : Field) : Nat :=
  match f.Names with
  | n :: _ => n.NamePos
  | [] => f.Typ.Pos

/-- The shapes of the type of a `TypeSpec` that the handler tells apart. -/
inductive TypeExpr where
  | InterfaceType (Methods : List Field)
  | StructType
  | Other
deriving DecidableEq, Repr

/-- The syntax tree as `ast.Inspect` walks it, with the node kinds of the
callback's type switch: `*ast.FuncDecl`, `*ast.TypeSpec`, and every other
node.  `children` are the nodes below, in the order of the walk; a subtree
without a function declaration or a type specification is visited without
effect (the `default` case only prints) and may be left out. -/
inductive Node where
  | FuncDecl (Recv : Option (List Field)) (Name : Ident) (children : List Node)
  | TypeSpec (Name : Ident) (Typ : TypeExpr) (children : List Node)
  | Other (children : List Node)

/-- Model of `ast.ObjKind`. -/
inductive ObjKind where
  | Bad | Pkg | Con | Typ | Var | Fun | Lbl
deriving DecidableEq, Repr

/-- Model of `ObjKind.String`. -/
def ObjKind.String : ObjKind → String
  | .Bad => "bad"
  | .Pkg => "package"
  | .Con => "const"
  | .Typ => "type"
  | .Var => "var"
  | .Fun => "func"
  | .Lbl => "label"

/-- The declaration an `ast.Object` points at, as far as the handler looks:
a `*ast.TypeSpec` with its type, or anything else. -/
inductive Decl where
  | TypeSpec (Name : Ident) (Typ : TypeExpr)
  | Other
deriving DecidableEq, Repr

/-- An `ast.Object` of the file scope.  `Pos` is what the method `Pos()` of
the object returns. -/
structure Object where
  Kind : ObjKind
  Name : String
  Decl : Decl
  Pos : Nat
deriving DecidableEq, Repr

/-- An `ast.BasicLit`: the literal text, quotes included. -/
structure BasicLit where
  Value : String
deriving DecidableEq, Repr

/-- An `ast.ImportSpec`. -/
structure ImportSpec where
  Path : BasicLit
deriving DecidableEq, Repr

/-- An `ast.Scope`.  `Objects` is a Go map (`map[string]*Object`), and the
order in which `range` visits a map is not specified by the language and
varies between runs.  The map is represented by its entries in the order in
which the `range` of this run visits them, so every order of the entries is
a possible input. -/
structure Scope where
  Objects : List Object
deriving DecidableEq, Repr

/-- An `ast.File` as `parser.ParseFile` returns it: the nodes below the file
node in the walk of `ast.Inspect`, the package scope, and the import list. -/
structure File where
  Decls : List Node
  Scope : Scope
  Imports : List ImportSpec

end ast

/-! ## The collaborators -/

/-- An `os.FileInfo`. -/
structure FileInfo where
  Name : String
  Size : Int
  IsDir : Bool
deriving DecidableEq, Repr

/-- A `build.Package`, of which the handler reads the name. -/
structure build.Package where
  Name : String
deriving DecidableEq, Repr

/-- The environment of one request: the value of `GOPATH` and the results of
the library calls the handler makes.  A failing call gives its error
message. -/
structure Env where
  /-- The value of `os.Getenv("GOPATH")`. -/
  GOPATH : String
  /-- The function `filepath.Join` at two elements. -/
  Join : String → String → String
  /-- The path returned by `filepath.Rel`; the handler drops its error. -/
  Rel : String → String → String
  /-- The function `os.Stat`. -/
  Stat : String → Except String FileInfo
  /-- The function `ioutil.ReadDir`. -/
  ReadDir : String → Except String (List FileInfo)
  /-- The call `parser.ParseFile(fset, path, nil, 0)`. -/
  ParseFile : String → Except String ast.File
  /-- The call `build.Import(loc, "", 0)`. -/
  Import : String → Except String build.Package

/-- The form values of the request: `dir` and `name`. -/
structure Request where
  dir : String
  name : String
deriving DecidableEq, Repr

/-- What the handler sends: `http.Error` with a message and a status code, or
the JSON array of the nodes. -/
inductive Response where
  | Error (msg : String) (code : Nat)
  | Write (nodes : List node)
deriving DecidableEq, Repr

def StatusInternalServerError : Nat := 500

/-! ## Receiver mode (node.go, lines 68-126) -/

/-- The node appended for a receiver `v` of the function named `mfName`
(lines 84-90). -/
def recvNode (dir : String) (mfName : ast.Ident) (v : ast.Field) : node :=
  { Id := Sprint v.Pos
    Label := Sprintf "recv func" mfName.Name
    Typ := GoExplorer.Object
    Dir := dir
    Kind := "recvfunc" }

/-- One turn of the loop over `mf.Recv.List` (lines 77-95): a node is
appended when the receiver's type is a `*ast.StarExpr` whose operand is an
identifier named `receiver`; the case `*ast.Ident` only prints. -/
def visitRecv (receiver dir : String) (mfName : ast.Ident) (nodes : List node) (v : ast.Field) :
    List node :=
  match v.Typ with
  | .StarExpr _ (.Ident si) =>
    if si.Name = receiver then nodes ++ [recvNode dir mfName v] else nodes
  | .StarExpr _ _ => nodes
  | .Ident _ => nodes
  | .Other _ => nodes

/-- The node appended for the member `x` of an interface whose first name is
`mname` (lines 107-114). -/
def ifcNode (dir : String) (x : ast.Field) (mname : ast.Ident) : node :=
  { Id := Sprint x.Pos
    Label := Sprintf "ifc func" mname.Name
    Typ := GoExplorer.Object
    Dir := dir
    Kind := "recvfunc" }

/-- One turn of the loop over `x.Methods.List` (lines 103-116): a member
without a name is passed over. -/
def visitMethod (dir : String) (nodes : List node) (x : ast.Field) : List node :=
  match x.Names with
  | [] => nodes
  | mname :: _ => nodes ++ [ifcNode dir x mname]

/-- The callback given to `ast.Inspect` (lines 72-126), as a function of the
nodes collected so far and the node visited. -/
def visit (receiver dir : String) (nodes : List node) : ast.Node → List node
  | .FuncDecl (some recv) mfName _ => recv.foldl (visitRecv receiver dir mfName) nodes
  | .FuncDecl none _ _ => nodes
  | .TypeSpec miName (.InterfaceType methods) _ =>
    if miName.Name = receiver then methods.foldl (visitMethod dir) nodes else nodes
  | .TypeSpec _ _ _ => nodes
  | .Other _ => nodes

mutual
/-- Model of `ast.Inspect` with the callback `visit`, which always returns
true: the node is visited, then its children in order. -/
def Inspect (receiver dir : String) (nodes : List node) : ast.Node → List node
  | .FuncDecl recv mfName children =>
    InspectList receiver dir (visit receiver dir nodes (.FuncDecl recv mfName children)) children
  | .TypeSpec miName typ children =>
    InspectList receiver dir (visit receiver dir nodes (.TypeSpec miName typ children)) children
  | .Other children =>
    InspectList receiver dir (visit receiver dir nodes (.Other children)) children
/-- The walk of a list of children. -/
def InspectList (receiver dir : String) (nodes : List node) : List ast.Node → List node
  | [] => nodes
  | c :: cs => InspectList receiver dir (Inspect receiver dir nodes c) cs
end

/-! ## Extraction mode (node.go, lines 127-164) -/

/-- The string `t` of lines 132-139: the kind of the object, replaced by
"interface" or "struct" when the declaration is a type specification of that
shape. -/
def declKind (v : ast.Object) : String :=
  match v.Decl with
  | .TypeSpec _ (.InterfaceType _) => "interface"
  | .TypeSpec _ .StructType => "struct"
  | .TypeSpec _ .Other => v.Kind.String
  | .Other => v.Kind.String

/-- The node appended for a scope object (lines 140-148). -/
def declNode (dir loc : String) (v : ast.Object) : node :=
  { Id := Sprint v.Pos
    Label := Sprintf (declKind v) v.Name
    Typ := GoExplorer.Object
    Dir := dir
    Loc := loc
    Kind := declKind v
    Name := v.Name }

/-- The node appended for an import (lines 153-161). -/
def importNode (dir loc : String) (i : ast.ImportSpec) : node :=
  { Id := i.Path.Value
    Label := Sprintf "import" i.Path.Value
    Typ := GoExplorer.Object
    Dir := dir
    Loc := loc
    Kind := "import"
    Name := i.Path.Value }

/-- The two loops of extraction mode (lines 131-162), starting from the
nodes collected so far. -/
def extract (dir loc : String) (af : ast.File) (nodes : List node) : List node :=
  let nodes := af.Scope.Objects.foldl (fun acc v => acc ++ [declNode dir loc v]) nodes
  af.Imports.foldl (fun acc i => acc ++ [importNode dir loc i]) nodes

/-! ## Directory listing (node.go, lines 165-214) -/

/-- The classification of lines 188-202. -/
def classify (env : Env) (dirSrc dir loc : String) (f : FileInfo) : NodeType :=
  if dir = dirSrc then TopLevel
  else if f.IsDir then
    match env.Import loc with
    | .ok pkg => if pkg.Name = "main" then Program else Package
    | .error _ => Folder
  else Source

/-- One turn of the loop over the directory's entries (lines 173-212). -/
def listEntry (env : Env) (dirSrc dir : String) (nodes : List node) (f : FileInfo) :
    List node :=
  let base := Base f.Name
  if HasPrefix base "." then nodes
  else
    let path := env.Join dir f.Name
    if !f.IsDir && Ext path != ".go" then nodes
    else
      let loc := env.Rel dirSrc path
      let typ := classify env dirSrc dir loc f
      nodes ++ [{ Id := path, Label := f.Name, Value := f.Size, Loc := loc, Dir := dir,
                  Typ := typ }]

/-! ## The handler (node.go, lines 44-225) -/

/-- The directory `dirSrc` of line 46. -/
def dirSrcOf (env : Env) : String :=
  env.Join env.GOPATH "src"

/-- The target `dir` of lines 48-51. -/
def targetOf (env : Env) (r : Request) : String :=
  if r.dir ≠ "" then env.Join (dirSrcOf env) r.dir else dirSrcOf env

/-- The handler.  `json.MarshalIndent` does not fail on a slice of `node`
(strings and an `int64`), so the collected nodes are what is written. -/
def gopathHandler (env : Env) (r : Request) : Response :=
  let dirSrc := dirSrcOf env
  let dir := targetOf env r
  let nodes : List node := []
  match env.Stat dir with
  | .error err => .Error err StatusInternalServerError
  | .ok file =>
    if !file.IsDir && Ext file.Name == ".go" then
      match env.ParseFile dir with
      | .error err => .Error err StatusInternalServerError
      | .ok af =>
        if r.name ≠ "" then
          .Write (Inspect r.name dir nodes (.Other af.Decls))
        else
          let loc := env.Rel dirSrc dir
          .Write (extract dir loc af nodes)
    else
      match env.ReadDir dir with
      | .error err => .Error err StatusInternalServerError
      | .ok files => .Write (files.foldl (listEntry env dirSrc dir) nodes)

/-! ## The loops in closed form

What each loop of the handler appends, as a list; the lemmas `listEntry_eq`,
`visit_eq` and `Inspect_eq` below relate these to the loops themselves. -/

/-- The two guards of the loop over the directory's entries (lines 176 and
182): true when the entry gets a node. -/
def keptEntry (env : Env) (dir : String) (f : FileInfo) : Bool :=
  !HasPrefix (Base f.Name) "." && !(!f.IsDir && Ext (env.Join dir f.Name) != ".go")

/-- The node of lines 204-211 for an entry that passed the guards. -/
def entryNode (env : Env) (dirSrc dir : String) (f : FileInfo) : node :=
  { Id := env.Join dir f.Name
    Label := f.Name
    Value := f.Size
    Loc := env.Rel dirSrc (env.Join dir f.Name)
    Dir := dir
    Typ := classify env dirSrc dir (env.Rel dirSrc (env.Join dir f.Name)) f }

/-- What one turn of the loop over the receivers appends. -/
def recvEmit (receiver dir : String) (mfName : ast.Ident) (v : ast.Field) : List node :=
  match v.Typ with
  | .StarExpr _ (.Ident si) => if si.Name = receiver then [recvNode dir mfName v] else []
  | .StarExpr _ _ => []
  | .Ident _ => []
  | .Other _ => []

/-- What one turn of the loop over the members of an interface appends. -/
def methodEmit (dir : String) (x : ast.Field) : List node :=
  match x.Names with
  | [] => []
  | mname :: _ => [ifcNode dir x mname]

/-- What the callback appends at one node of the tree. -/
def visitEmit (receiver dir : String) : ast.Node → List node
  | .FuncDecl (some recv) mfName _ => (recv.map (recvEmit receiver dir mfName)).flatten
  | .FuncDecl none _ _ => []
  | .TypeSpec miName (.InterfaceType methods) _ =>
    if miName.Name = receiver then (methods.map (methodEmit dir)).flatten else []
  | .TypeSpec _ _ _ => []
  | .Other _ => []

mutual
/-- What the walk below and at a node appends, in the order of the walk. -/
def emitted (receiver dir : String) : ast.Node → List node
  | .FuncDecl recv mfName children =>
    visitEmit receiver dir (.FuncDecl recv mfName children) ++ emittedList receiver dir children
  | .TypeSpec miName typ children =>
    visitEmit receiver dir (.TypeSpec miName typ children) ++ emittedList receiver dir children
  | .Other children => emittedList receiver dir children
/-- What the walk of a list of children appends. -/
def emittedList (receiver dir : String) : List ast.Node → List node
  | [] => []
  | c :: cs => emitted receiver dir c ++ emittedList receiver dir cs
end

/-- The nodes a response carries: those written, none with an error. -/
def Response.nodes : Response → List node
  | .Write nodes => nodes
  | .Error _ _ => []

/-! ## Reference notions of the specification -/

/-- Source declaration order of the scope objects: by ascending position. -/
def sourceOrder (objs : List ast.Object) : List ast.Object :=
  objs.insertionSort (fun a b => a.Pos ≤ b.Pos)

/-- The declaration is a type whose body is a structure. -/
def IsStructDecl (v : ast.Object) : Prop :=
  ∃ name, v.Decl = .TypeSpec name .StructType

/-- The declaration is a type whose body is an interface. -/
def IsInterfaceDecl (v : ast.Object) : Prop :=
  ∃ name methods, v.Decl = .TypeSpec name (.InterfaceType methods)

/-! ## Sample environments -/

/-- A join of two clean Unix path elements. -/
def sampleJoin (a b : String) : String :=
  if a = "" then b else if b = "" then a else a ++ "/" ++ b

/-- The object of `func Foo() {}`, declared first in the sample file; the
name is at offset 32, position 33. -/
def fooObj : ast.Object :=
  { Kind := .Fun, Name := "Foo", Decl := .Other, Pos := 33 }

/-- The object of `type Bar struct{}`, declared second in the sample file;
the name is at offset 47, position 48. -/
def barObj : ast.Object :=
  { Kind := .Typ, Name := "Bar", Decl := .TypeSpec ⟨48, "Bar"⟩ .StructType, Pos := 48 }

/-- The import `"fmt"`. -/
def fmtImport : ast.ImportSpec :=
  ⟨⟨"\"fmt\""⟩⟩

/-- An environment with the workspace `/go/src` that holds one source file,
`app/a.go`, parsed to `af`, and one text file, `app/notes.txt`; reading either
as a directory fails.  The relative path of a path below the workspace is the
path without its first eight characters, `/go/src/`. -/
def fileEnv (af : Except String ast.File) : Env :=
  { GOPATH := "/go"
    Join := sampleJoin
    Rel := fun _ p => p.drop 8
    Stat := fun p =>
      if p = "/go/src/app/a.go" then .ok ⟨"a.go", 80, false⟩
      else if p = "/go/src/app/notes.txt" then .ok ⟨"notes.txt", 12, false⟩
      else .error "no such file or directory"
    ReadDir := fun _ => .error "not a directory"
    ParseFile := fun _ => af
    Import := fun _ => .error "cannot find package" }

/-- The file with the lines `package app`, `import "fmt"`, `func Foo() {}`
and `type Bar struct{}`, one blank line between them, on a run whose map
iteration visits `Bar` before `Foo`. -/
def orderFile : ast.File :=
  { Decls :=
      [ .Other [],
        .FuncDecl none ⟨33, "Foo"⟩ [],
        .Other [.TypeSpec ⟨48, "Bar"⟩ .StructType []] ]
    Scope := ⟨[barObj, fooObj]⟩
    Imports := [fmtImport] }

/-- The file with the line `package app` and an import declaration of the
two specifications `"fmt"` and `f "fmt"`: one package imported under two
names. -/
def twiceFile : ast.File :=
  { Decls := [.Other []], Scope := ⟨[]⟩, Imports := [fmtImport, fmtImport] }

/-- The file with the line `package app`, an import declaration of the two
specifications `"fmt"` and `f "fmt"`, each on a line of its own after a tab,
and the lines `type T struct{}` and `func (p *T) N() {}`, one blank line
between the declarations: one package imported under two names, next to a
method with a pointer receiver. -/
def twiceRecvFile : ast.File :=
  { Decls :=
      [ .Other [],
        .Other [.TypeSpec ⟨47, "T"⟩ .StructType []],
        .FuncDecl (some [⟨[⟨65, "p"⟩], .StarExpr 67 (.Ident ⟨68, "T"⟩)⟩]) ⟨71, "N"⟩ [] ]
    Scope :=
      ⟨[{ Kind := .Typ, Name := "T", Decl := .TypeSpec ⟨47, "T"⟩ .StructType, Pos := 47 }]⟩
    Imports := [fmtImport, fmtImport] }

/-- The object of `type T struct{}` in the files below. -/
def tObj : ast.Object :=
  { Kind := .Typ, Name := "T", Decl := .TypeSpec ⟨19, "T"⟩ .StructType, Pos := 19 }

/-- The file with the lines `package app`, `type T struct{}`,
`func (t T) M() {}` and `func (p *T) N() {}`, one blank line between them: a
method with a value receiver and one with a pointer receiver. -/
def recvFile : ast.File :=
  { Decls :=
      [ .Other [.TypeSpec ⟨19, "T"⟩ .StructType []],
        .FuncDecl (some [⟨[⟨37, "t"⟩], .Ident ⟨39, "T"⟩⟩]) ⟨42, "M"⟩ [],
        .FuncDecl (some [⟨[⟨56, "p"⟩], .StarExpr 58 (.Ident ⟨59, "T"⟩)⟩]) ⟨62, "N"⟩ [] ]
    Scope := ⟨[tObj]⟩
    Imports := [] }

/-- The file with the lines `package app`, `type T struct{}` and
`func (t T) M() {}`, one blank line between them: one method, with a value
receiver. -/
def valueRecvFile : ast.File :=
  { Decls :=
      [ .Other [.TypeSpec ⟨19, "T"⟩ .StructType []],
        .FuncDecl (some [⟨[⟨37, "t"⟩], .Ident ⟨39, "T"⟩⟩]) ⟨42, "M"⟩ [] ]
    Scope := ⟨[tObj]⟩
    Imports := [] }

/-- A name as a directory read returns it: not empty and without a
separator. -/
abbrev ValidName (s : String) : Prop :=
  s.data ≠ [] ∧ '/' ∉ s.data

/-- The children the specification keeps: the name does not start with "."
and the child is a directory or a regular file with the extension ".go". -/
def keptBySpec (f : FileInfo) : Bool :=
  !HasPrefix f.Name "." && (f.IsDir || Ext f.Name == ".go")

/-- A workspace `/go/src` with one directory `app` that holds a hidden
directory, a program, a package, a folder that is no package, a source file
and a text file. -/
def dirEnv : Env :=
  { GOPATH := "/go"
    Join := sampleJoin
    Rel := fun _ p => p.drop 8
    Stat := fun p =>
      if p = "/go/src" then .ok ⟨"src", 4096, true⟩
      else if p = "/go/src/app" then .ok ⟨"app", 4096, true⟩
      else .error "no such file or directory"
    ReadDir := fun p =>
      if p = "/go/src" then .ok [⟨"app", 4096, true⟩, ⟨"top.go", 7, false⟩]
      else if p = "/go/src/app" then
        .ok [⟨".git", 4096, true⟩, ⟨"cmd", 4096, true⟩, ⟨"lib", 4096, true⟩,
             ⟨"docs", 4096, true⟩, ⟨"main.go", 120, false⟩, ⟨"README.md", 30, false⟩]
      else .error "no such file or directory"
    ParseFile := fun _ => .error "not parsed"
    Import := fun loc =>
      if loc = "app/cmd" then .ok ⟨"main"⟩
      else if loc = "app/lib" then .ok ⟨"lib"⟩
      else .error "no buildable Go source files" }

/-- The members of the interface types that a node itself declares under the
name `R`: the method list when the node is a type specification named `R`
whose type is an interface, nothing otherwise. -/
def declaredMembers (R : String) : ast.Node → List ast.Field
  | .TypeSpec name (.InterfaceType methods) _ => if name.Name = R then methods else []
  | .TypeSpec _ _ _ => []
  | .FuncDecl _ _ _ => []
  | .Other _ => []

mutual
/-- The members of every interface type declared under the name `R` in the
tree, in source order. -/
def interfaceMembers (R : String) : ast.Node → List ast.Field
  | .FuncDecl recv name children =>
    declaredMembers R (.FuncDecl recv name children) ++ interfaceMembersList R children
  | .TypeSpec name typ children =>
    declaredMembers R (.TypeSpec name typ children) ++ interfaceMembersList R children
  | .Other children => interfaceMembersList R children
/-- The members of the interface types named `R` in a list of trees. -/
def interfaceMembersList (R : String) : List ast.Node → List ast.Field
  | [] => []
  | c :: cs => interfaceMembers R c ++ interfaceMembersList R cs
end

/-- A member of a method set is explicitly named when it has a name; an
embedded member has none. -/
def IsNamed (x : ast.Field) : Bool :=
  !x.Names.isEmpty

/-- A node of the response that stands for a member of an interface: its
label is that of an interface member. -/
def isIfcNode (n : node) : Bool :=
  HasPrefix n.Label "<code>ifc func</code>\n"

/-- The members of the interface `R` of the file below: the embedded
`io.Reader` and the methods `A()` and `B() int`, each on a line of its own
after a tab. -/
def rMembers : List ast.Field :=
  [⟨[], .Other 47⟩, ⟨[⟨58, "A"⟩], .Other 59⟩, ⟨[⟨63, "B"⟩], .Other 64⟩]

/-- The file with the lines `package app`, `import "io"`, the interface type
`R` with the members `rMembers`, `type S struct{}`, `func (r *R) N() {}` and
`func (s *S) A() {}`, one blank line between the declarations: an interface
`R` with an embedded member and two named ones, next to a function whose
receiver is `*R`. -/
def ifcFile : ast.File :=
  { Decls :=
      [ .Other [],
        .Other [.TypeSpec ⟨32, "R"⟩ (.InterfaceType rMembers) []],
        .Other [.TypeSpec ⟨79, "S"⟩ .StructType []],
        .FuncDecl (some [⟨[⟨97, "r"⟩], .StarExpr 99 (.Ident ⟨100, "R"⟩)⟩]) ⟨103, "N"⟩ [],
        .FuncDecl (some [⟨[⟨117, "s"⟩], .StarExpr 119 (.Ident ⟨120, "S"⟩)⟩]) ⟨123, "A"⟩ [] ]
    Scope :=
      ⟨[ { Kind := .Typ, Name := "R", Decl := .TypeSpec ⟨32, "R"⟩ (.InterfaceType rMembers),
           Pos := 32 },
         { Kind := .Typ, Name := "S", Decl := .TypeSpec ⟨79, "S"⟩ .StructType, Pos := 79 } ]⟩
    Imports := [⟨⟨"\"io\""⟩⟩] }

/-- The fields a node holds itself: the receivers of a function declaration,
the members of the interface type of a type specification. -/
def ownFields : ast.Node → List ast.Field
  | .FuncDecl (some recv) _ _ => recv
  | .FuncDecl none _ _ => []
  | .TypeSpec _ (.InterfaceType methods) _ => methods
  | .TypeSpec _ _ _ => []
  | .Other _ => []

mutual
/-- The receivers and interface members of a tree, in source order. -/
def fieldsOf : ast.Node → List ast.Field
  | .FuncDecl recv name children =>
    ownFields (.FuncDecl recv name children) ++ fieldsOfList children
  | .TypeSpec name typ children =>
    ownFields (.TypeSpec name typ children) ++ fieldsOfList children
  | .Other children => fieldsOfList children
/-- The receivers and interface members of a list of trees. -/
def fieldsOfList : List ast.Node → List ast.Field
  | [] => []
  | c :: cs => fieldsOf c ++ fieldsOfList cs
end

/-- A string literal as the scanner returns it starts with a double quote (character
34) or with a back quote (character 96). -/
def IsStringLit (s : String) : Bool :=
  match s.data with
  | c :: _ => c == Char.ofNat 34 || c == Char.ofNat 96
  | [] => false

/-- What the parser guarantees of a file it returns: distinct receivers and
interface members start at distinct positions, distinct scope objects are
declared at distinct positions, and an import path is a string literal. -/
structure WellFormed (af : ast.File) : Prop where
  fieldPos : ((fieldsOfList af.Decls).map ast.Field.Pos).Nodup
  objectPos : (af.Scope.Objects.map (fun v => v.Pos)).Nodup
  pathLit : ∀ i ∈ af.Imports, IsStringLit i.Path.Value = true

/-! # Properties -/

/-! ## Lemmas on the loops -/

theorem foldl_append_singleton {α β : Type} (g : α → β) (xs : List α) (init : List β) :
    xs.foldl (fun acc x => acc ++ [g x]) init = init ++ xs.map g := by
  induction xs generalizing init with
  | nil => simp
  | cons x xs ih => simp [ih]

theorem foldl_append_list {α β : Type} (step : List β → α → List β) (h : α → List β)
    (hstep : ∀ acc x, step acc x = acc ++ h x) (xs : List α) (init : List β) :
    xs.foldl step init = init ++ (xs.map h).flatten := by
  induction xs generalizing init with
  | nil => simp
  | cons x xs ih => simp [ih, hstep]

theorem extract_eq (dir loc : String) (af : ast.File) :
    extract dir loc af [] =
      af.Scope.Objects.map (declNode dir loc) ++ af.Imports.map (importNode dir loc) := by
  simp [extract, foldl_append_singleton]

/-- Extraction mode: the response of the handler. -/
theorem gopathHandler_extraction (env : Env) (r : Request) (file : FileInfo) (af : ast.File)
    (hstat : env.Stat (targetOf env r) = .ok file)
    (hreg : file.IsDir = false) (hext : Ext file.Name = ".go")
    (hparse : env.ParseFile (targetOf env r) = .ok af) (hname : r.name = "") :
    gopathHandler env r = .Write
      (af.Scope.Objects.map (declNode (targetOf env r) (env.Rel (dirSrcOf env) (targetOf env r)))
        ++ af.Imports.map
          (importNode (targetOf env r) (env.Rel (dirSrcOf env) (targetOf env r)))) := by
  simp [gopathHandler, hstat, hreg, hext, hparse, hname, extract_eq]

theorem declKind_ne_import (v : ast.Object) : declKind v ≠ "import" := by
  unfold declKind
  split
  · decide
  · decide
  · cases v.Kind <;> decide
  · cases v.Kind <;> decide

/-- C1 (amended): in extraction mode, for a file whose package scope holds K
objects and which has M imports, the response has exactly K+M nodes; the
first K are the nodes of the scope objects in the order in which the iteration
over the scope map visits them, and each carries a Kind other than "import";
the last M are the nodes of the imports in import-list order, and each
carries the Kind "import". -/
theorem extraction_nodes (env : Env) (r : Request) (file : FileInfo) (af : ast.File)
    (hstat : env.Stat (targetOf env r) = .ok file)
    (hreg : file.IsDir = false) (hext : Ext file.Name = ".go")
    (hparse : env.ParseFile (targetOf env r) = .ok af) (hname : r.name = "") :
    ∃ nodes, gopathHandler env r = .Write nodes ∧
      nodes.length = af.Scope.Objects.length + af.Imports.length ∧
      nodes.take af.Scope.Objects.length =
        af.Scope.Objects.map
          (declNode (targetOf env r) (env.Rel (dirSrcOf env) (targetOf env r))) ∧
      (∀ n ∈ nodes.take af.Scope.Objects.length, n.Kind ≠ "import") ∧
      nodes.drop af.Scope.Objects.length =
        af.Imports.map
          (importNode (targetOf env r) (env.Rel (dirSrcOf env) (targetOf env r))) ∧
      (∀ n ∈ nodes.drop af.Scope.Objects.length, n.Kind = "import") := by
  refine ⟨_, gopathHandler_extraction env r file af hstat hreg hext hparse hname, ?_, ?_, ?_, ?_, ?_⟩
  · simp
  · simp [List.take_left']
  · rw [List.take_left' (by simp)]
    intro n hn
    obtain ⟨v, -, rfl⟩ := List.mem_map.1 hn
    exact declKind_ne_import v
  · simp [List.drop_left']
  · rw [List.drop_left' (by simp)]
    intro n hn
    obtain ⟨i, -, rfl⟩ := List.mem_map.1 hn
    rfl

/-- Witness of C1 (amended): the sample file with two scope objects and
one import. -/
theorem extraction_nodes_witness :
    ∃ nodes, gopathHandler (fileEnv (.ok orderFile)) ⟨"app/a.go", ""⟩ = .Write nodes ∧
      nodes.length = 2 + 1 ∧
      nodes.take 2 = [barObj, fooObj].map (declNode "/go/src/app/a.go" "app/a.go") ∧
      (∀ n ∈ nodes.take 2, n.Kind ≠ "import") ∧
      nodes.drop 2 = [fmtImport].map (importNode "/go/src/app/a.go" "app/a.go") ∧
      (∀ n ∈ nodes.drop 2, n.Kind = "import") :=
  extraction_nodes (fileEnv (.ok orderFile)) ⟨"app/a.go", ""⟩ ⟨"a.go", 80, false⟩ orderFile
    rfl rfl (by decide) rfl rfl

/-- Counterexample to C1: the file declares `Foo` before `Bar`; on a run whose
map iteration visits `Bar` first, the first two nodes of the response are
those of `Bar` and `Foo`, not the nodes of the declarations in source order. -/
theorem extraction_source_order_counterexample :
    ∃ nodes, gopathHandler (fileEnv (.ok orderFile)) ⟨"app/a.go", ""⟩ = .Write nodes ∧
      nodes.take orderFile.Scope.Objects.length ≠
        (sourceOrder orderFile.Scope.Objects).map
          (declNode "/go/src/app/a.go" "app/a.go") ∧
      (nodes.take orderFile.Scope.Objects.length).map (fun n => n.Name) = ["Bar", "Foo"] ∧
      (sourceOrder orderFile.Scope.Objects).map (fun v => v.Name) = ["Foo", "Bar"] := by
  refine ⟨_, rfl, ?_, ?_, ?_⟩ <;> decide

/-- C6: in extraction mode the node of every scope object carries the Kind
"struct" when the declaration is a type whose body is a structure, the Kind
"interface" when it is a type whose body is an interface, and in every other
case the string of the object's kind. -/
theorem extraction_kind (env : Env) (r : Request) (file : FileInfo) (af : ast.File)
    (hstat : env.Stat (targetOf env r) = .ok file)
    (hreg : file.IsDir = false) (hext : Ext file.Name = ".go")
    (hparse : env.ParseFile (targetOf env r) = .ok af) (hname : r.name = "") :
    ∃ nodes, gopathHandler env r = .Write nodes ∧
      List.Forall₂
        (fun v n =>
          n.Name = v.Name ∧
          (IsStructDecl v → n.Kind = "struct") ∧
          (IsInterfaceDecl v → n.Kind = "interface") ∧
          (¬ IsStructDecl v → ¬ IsInterfaceDecl v → n.Kind = v.Kind.String))
        af.Scope.Objects (nodes.take af.Scope.Objects.length) := by
  refine ⟨_, gopathHandler_extraction env r file af hstat hreg hext hparse hname, ?_⟩
  rw [List.take_left' (by simp), List.forall₂_map_right_iff, List.forall₂_same]
  intro v _
  refine ⟨rfl, ?_, ?_, ?_⟩
  · rintro ⟨name, hd⟩
    simp [declNode, declKind, hd]
  · rintro ⟨name, methods, hd⟩
    simp [declNode, declKind, hd]
  · intro hs hi
    cases hd : v.Decl with
    | Other => simp [declNode, declKind, hd]
    | TypeSpec name typ =>
      cases typ with
      | InterfaceType methods => exact absurd ⟨name, methods, hd⟩ hi
      | StructType => exact absurd ⟨name, hd⟩ hs
      | Other => simp [declNode, declKind, hd]

/-- Witness of C6: the sample file with a function and a structure type. -/
theorem extraction_kind_witness :
    ∃ nodes, gopathHandler (fileEnv (.ok orderFile)) ⟨"app/a.go", ""⟩ = .Write nodes ∧
      List.Forall₂
        (fun v n =>
          n.Name = v.Name ∧
          (IsStructDecl v → n.Kind = "struct") ∧
          (IsInterfaceDecl v → n.Kind = "interface") ∧
          (¬ IsStructDecl v → ¬ IsInterfaceDecl v → n.Kind = v.Kind.String))
        [barObj, fooObj] (nodes.take 2) :=
  extraction_kind (fileEnv (.ok orderFile)) ⟨"app/a.go", ""⟩ ⟨"a.go", 80, false⟩ orderFile
    rfl rfl (by decide) rfl rfl

/-- C10 (amended): in extraction mode the node of every import has the Kind
"import", and its Name and its Id are the import path string; its Label is
the import path string after the heading `<code>import</code>` and a line
break. -/
theorem extraction_imports (env : Env) (r : Request) (file : FileInfo) (af : ast.File)
    (hstat : env.Stat (targetOf env r) = .ok file)
    (hreg : file.IsDir = false) (hext : Ext file.Name = ".go")
    (hparse : env.ParseFile (targetOf env r) = .ok af) (hname : r.name = "") :
    ∃ nodes, gopathHandler env r = .Write nodes ∧
      List.Forall₂
        (fun i n =>
          n.Kind = "import" ∧ n.Name = i.Path.Value ∧ n.Id = i.Path.Value ∧
          n.Label = "<code>import</code>\n" ++ i.Path.Value)
        af.Imports (nodes.drop af.Scope.Objects.length) := by
  refine ⟨_, gopathHandler_extraction env r file af hstat hreg hext hparse hname, ?_⟩
  rw [List.drop_left' (by simp), List.forall₂_map_right_iff, List.forall₂_same]
  intro i _
  refine ⟨rfl, rfl, rfl, ?_⟩
  simp [importNode, Sprintf]

/-- Witness of C10 (amended): the sample file with the import of "fmt". -/
theorem extraction_imports_witness :
    ∃ nodes, gopathHandler (fileEnv (.ok orderFile)) ⟨"app/a.go", ""⟩ = .Write nodes ∧
      List.Forall₂
        (fun i n =>
          n.Kind = "import" ∧ n.Name = i.Path.Value ∧ n.Id = i.Path.Value ∧
          n.Label = "<code>import</code>\n" ++ i.Path.Value)
        [fmtImport] (nodes.drop 2) :=
  extraction_imports (fileEnv (.ok orderFile)) ⟨"app/a.go", ""⟩ ⟨"a.go", 80, false⟩ orderFile
    rfl rfl (by decide) rfl rfl

/-- Counterexample to C10: the Label of the node of the import of "fmt" is
not the import path string. -/
theorem import_label_counterexample :
    ∃ nodes, gopathHandler (fileEnv (.ok orderFile)) ⟨"app/a.go", ""⟩ = .Write nodes ∧
      ¬ List.Forall₂
        (fun i n =>
          n.Kind = "import" ∧ n.Name = i.Path.Value ∧ n.Label = i.Path.Value ∧
          n.Id = i.Path.Value)
        orderFile.Imports (nodes.drop orderFile.Scope.Objects.length) := by
  refine ⟨_, rfl, ?_⟩
  intro h
  simp [orderFile, fmtImport, importNode, extract, Sprintf] at h

/-- C9: when the target is a regular file with the extension ".go" and the
parse reports an error, the response is that error with status 500, with or
without a receiver name, and it is no list of nodes. -/
theorem parse_error_response (env : Env) (r : Request) (file : FileInfo) (err : String)
    (hstat : env.Stat (targetOf env r) = .ok file)
    (hreg : file.IsDir = false) (hext : Ext file.Name = ".go")
    (hparse : env.ParseFile (targetOf env r) = .error err) :
    gopathHandler env r = .Error err StatusInternalServerError ∧
      ∀ nodes, gopathHandler env r ≠ .Write nodes := by
  have h : gopathHandler env r = .Error err StatusInternalServerError := by
    simp [gopathHandler, hstat, hreg, hext, hparse]
  refine ⟨h, ?_⟩
  intro nodes hn
  rw [h] at hn
  cases hn

/-- Witness of C9: a source file with a syntax error, asked for with a
receiver name. -/
theorem parse_error_response_witness :
    gopathHandler (fileEnv (.error "a.go:3:1: expected declaration")) ⟨"app/a.go", "T"⟩ =
        .Error "a.go:3:1: expected declaration" StatusInternalServerError ∧
      ∀ nodes, gopathHandler (fileEnv (.error "a.go:3:1: expected declaration"))
        ⟨"app/a.go", "T"⟩ ≠ .Write nodes :=
  parse_error_response (fileEnv (.error "a.go:3:1: expected declaration")) ⟨"app/a.go", "T"⟩
    ⟨"a.go", 80, false⟩ "a.go:3:1: expected declaration" rfl rfl (by decide) rfl

/-- C8 (amended): when the target can be stat'ed and is a regular file whose
extension is not ".go", the handler reads the target as a directory: the
response is the error of that read, without nodes, when the read fails, and
the listing of the entries read otherwise. -/
theorem non_source_file_response (env : Env) (r : Request) (file : FileInfo)
    (hstat : env.Stat (targetOf env r) = .ok file)
    (hreg : file.IsDir = false) (hext : Ext file.Name ≠ ".go") :
    gopathHandler env r =
      match env.ReadDir (targetOf env r) with
      | .error err => .Error err StatusInternalServerError
      | .ok files => .Write (files.foldl (listEntry env (dirSrcOf env) (targetOf env r)) []) := by
  simp [gopathHandler, hstat, hreg, hext]

/-- Witness of C8 (amended): the text file `app/notes.txt`. -/
theorem non_source_file_response_witness :
    gopathHandler (fileEnv (.ok orderFile)) ⟨"app/notes.txt", ""⟩ =
      match (fileEnv (.ok orderFile)).ReadDir
          (targetOf (fileEnv (.ok orderFile)) ⟨"app/notes.txt", ""⟩) with
      | .error err => .Error err StatusInternalServerError
      | .ok files => .Write (files.foldl
          (listEntry (fileEnv (.ok orderFile)) (dirSrcOf (fileEnv (.ok orderFile)))
            (targetOf (fileEnv (.ok orderFile)) ⟨"app/notes.txt", ""⟩)) []) :=
  non_source_file_response (fileEnv (.ok orderFile)) ⟨"app/notes.txt", ""⟩
    ⟨"notes.txt", 12, false⟩ rfl rfl (by decide)

/-- Counterexample to C8: the target `app/notes.txt` can be stat'ed and is a
file whose extension is not ".go"; reading it as a directory fails, and the
response is that error, not the empty list of nodes. -/
theorem non_source_file_counterexample :
    (fileEnv (.ok orderFile)).Stat (targetOf (fileEnv (.ok orderFile)) ⟨"app/notes.txt", ""⟩)
        = .ok ⟨"notes.txt", 12, false⟩ ∧
      Ext "notes.txt" ≠ ".go" ∧
      gopathHandler (fileEnv (.ok orderFile)) ⟨"app/notes.txt", ""⟩ =
        .Error "not a directory" StatusInternalServerError ∧
      gopathHandler (fileEnv (.ok orderFile)) ⟨"app/notes.txt", ""⟩ ≠ .Write [] := by
  refine ⟨rfl, by decide, rfl, by decide⟩

/-- C2 at the failing input: with the receiver name `T`, the file whose only
method has the value receiver `t T` gives no node at all, while of the two
methods of `recvFile` only the one with the pointer receiver `p *T` gets a
node. -/
theorem value_receiver_not_listed :
    gopathHandler (fileEnv (.ok valueRecvFile)) ⟨"app/a.go", "T"⟩ = .Write [] ∧
      gopathHandler (fileEnv (.ok recvFile)) ⟨"app/a.go", "T"⟩ =
        .Write [recvNode "/go/src/app/a.go" ⟨62, "N"⟩
          ⟨[⟨56, "p"⟩], .StarExpr 58 (.Ident ⟨59, "T"⟩)⟩] := by
  constructor <;> rfl

/-! ## Directory listing -/

theorem listEntry_eq (env : Env) (dirSrc dir : String) (nodes : List node) (f : FileInfo) :
    listEntry env dirSrc dir nodes f =
      nodes ++ (if keptEntry env dir f then [entryNode env dirSrc dir f] else []) := by
  unfold listEntry keptEntry entryNode
  by_cases h1 : HasPrefix (Base f.Name) "." = true
  · simp [h1]
  · by_cases h2 : (!f.IsDir && Ext (env.Join dir f.Name) != ".go") = true
    · simp [h1, h2]
    · simp [h1, h2]

theorem foldl_listEntry (env : Env) (dirSrc dir : String) (files : List FileInfo) :
    files.foldl (listEntry env dirSrc dir) [] =
      (files.filter (keptEntry env dir)).map (entryNode env dirSrc dir) := by
  rw [foldl_append_list (listEntry env dirSrc dir)
    (fun f => if keptEntry env dir f then [entryNode env dirSrc dir f] else [])
    (listEntry_eq env dirSrc dir)]
  induction files with
  | nil => simp
  | cons f fs ih =>
    by_cases h : keptEntry env dir f = true
    · simpa [List.filter_cons, h] using ih
    · simpa [List.filter_cons, h] using ih

/-- Directory listing: the response of the handler. -/
theorem gopathHandler_listing (env : Env) (r : Request) (file : FileInfo)
    (files : List FileInfo)
    (hstat : env.Stat (targetOf env r) = .ok file)
    (hbranch : file.IsDir = true ∨ Ext file.Name ≠ ".go")
    (hread : env.ReadDir (targetOf env r) = .ok files) :
    gopathHandler env r = .Write
      ((files.filter (keptEntry env (targetOf env r))).map
        (entryNode env (dirSrcOf env) (targetOf env r))) := by
  have hb : (!file.IsDir && Ext file.Name == ".go") = false := by
    rcases hbranch with h | h
    · simp [h]
    · simp [h]
  simp only [gopathHandler, hstat, hb, hread, foldl_listEntry]
  simp

/-- C4: in a directory listing every node, paired with the child it stands
for, has the Type `topLevel` when the target is the workspace root; otherwise,
for a child directory, `program` when the build resolution of its location
succeeds with the package name "main", `package` when it succeeds with
another name and `folder` when it fails; otherwise, for a child that is no
directory, `source`. -/
theorem listing_types (env : Env) (r : Request) (file : FileInfo) (files : List FileInfo)
    (hstat : env.Stat (targetOf env r) = .ok file)
    (hbranch : file.IsDir = true ∨ Ext file.Name ≠ ".go")
    (hread : env.ReadDir (targetOf env r) = .ok files) :
    ∃ nodes, gopathHandler env r = .Write nodes ∧
      List.Forall₂
        (fun f n =>
          n.Label = f.Name ∧
          n.Loc = env.Rel (dirSrcOf env) (env.Join (targetOf env r) f.Name) ∧
          (targetOf env r = dirSrcOf env → n.Typ = TopLevel) ∧
          (targetOf env r ≠ dirSrcOf env → f.IsDir = true →
            (∀ pkg, env.Import n.Loc = .ok pkg → pkg.Name = "main" → n.Typ = Program) ∧
            (∀ pkg, env.Import n.Loc = .ok pkg → pkg.Name ≠ "main" → n.Typ = Package) ∧
            (∀ err, env.Import n.Loc = .error err → n.Typ = Folder)) ∧
          (targetOf env r ≠ dirSrcOf env → f.IsDir = false → n.Typ = Source))
        (files.filter (keptEntry env (targetOf env r))) nodes := by
  refine ⟨_, gopathHandler_listing env r file files hstat hbranch hread, ?_⟩
  rw [List.forall₂_map_right_iff, List.forall₂_same]
  intro f _
  refine ⟨rfl, rfl, ?_, ?_, ?_⟩
  · intro h
    simp [entryNode, classify, h]
  · intro h hd
    refine ⟨?_, ?_, ?_⟩
    · intro pkg hp hm
      simp only [entryNode] at hp
      simp [entryNode, classify, h, hd, hp, hm]
    · intro pkg hp hm
      simp only [entryNode] at hp
      simp [entryNode, classify, h, hd, hp, hm]
    · intro err hp
      simp only [entryNode] at hp
      simp [entryNode, classify, h, hd, hp]
  · intro h hd
    simp [entryNode, classify, h, hd]

/-- Witness of C4: the listing of `/go/src/app` in the sample workspace types
the program, the package, the plain folder and the source file, and the
listing of the workspace root types both children `topLevel`. -/
theorem listing_types_witness :
    (∃ nodes, gopathHandler dirEnv ⟨"app", ""⟩ = .Write nodes ∧
      List.Forall₂
        (fun f n =>
          n.Label = f.Name ∧
          n.Loc = dirEnv.Rel (dirSrcOf dirEnv) (dirEnv.Join (targetOf dirEnv ⟨"app", ""⟩) f.Name) ∧
          (targetOf dirEnv ⟨"app", ""⟩ = dirSrcOf dirEnv → n.Typ = TopLevel) ∧
          (targetOf dirEnv ⟨"app", ""⟩ ≠ dirSrcOf dirEnv → f.IsDir = true →
            (∀ pkg, dirEnv.Import n.Loc = .ok pkg → pkg.Name = "main" → n.Typ = Program) ∧
            (∀ pkg, dirEnv.Import n.Loc = .ok pkg → pkg.Name ≠ "main" → n.Typ = Package) ∧
            (∀ err, dirEnv.Import n.Loc = .error err → n.Typ = Folder)) ∧
          (targetOf dirEnv ⟨"app", ""⟩ ≠ dirSrcOf dirEnv → f.IsDir = false → n.Typ = Source))
        ([⟨".git", 4096, true⟩, ⟨"cmd", 4096, true⟩, ⟨"lib", 4096, true⟩,
          ⟨"docs", 4096, true⟩, ⟨"main.go", 120, false⟩, ⟨"README.md", 30, false⟩].filter
            (keptEntry dirEnv (targetOf dirEnv ⟨"app", ""⟩))) nodes) ∧
      (gopathHandler dirEnv ⟨"app", ""⟩).nodes.map (fun n => n.Typ) =
        [Program, Package, Folder, Source] ∧
      (gopathHandler dirEnv ⟨"", ""⟩).nodes.map (fun n => n.Typ) = [TopLevel, TopLevel] :=
  ⟨listing_types dirEnv ⟨"app", ""⟩ ⟨"app", 4096, true⟩ _ rfl (Or.inl rfl) rfl,
    by decide, by decide⟩

theorem Base_of_validName (s : String) (h : ValidName s) : Base s = s := by
  obtain ⟨h1, h2⟩ := h
  have hns : ∀ c ∈ s.data, IsPathSeparator c = false := by
    intro c hc
    simp only [IsPathSeparator, beq_eq_false_iff_ne, ne_eq]
    rintro rfl
    exact h2 hc
  have h3 : s.data.reverse.dropWhile IsPathSeparator = s.data.reverse := by
    rw [List.dropWhile_eq_self_iff]
    intro hl
    have := hns _ (List.mem_reverse.1 (List.get_mem s.data.reverse 0 hl))
    rw [this]
    simp
  have h4 : s.data.reverse.takeWhile (fun c => !IsPathSeparator c) = s.data.reverse := by
    rw [List.takeWhile_eq_self_iff]
    intro x hx
    simp [hns x (List.mem_reverse.1 hx)]
  simp [Base, h1, h3, h4]

theorem keptEntry_eq_keptBySpec (env : Env) (dir : String) (f : FileInfo)
    (hname : ValidName f.Name)
    (hjoin : HasPrefix f.Name "." = false → Ext (env.Join dir f.Name) = Ext f.Name) :
    keptEntry env dir f = keptBySpec f := by
  unfold keptEntry keptBySpec
  rw [Base_of_validName _ hname]
  by_cases hp : HasPrefix f.Name "." = true
  · simp [hp]
  · have hp2 : HasPrefix f.Name "." = false := by simpa using hp
    rw [hjoin hp2]
    cases f.IsDir <;> simp [hp2, bne]

/-- C5: for a directory target whose read succeeds, the Labels of the
response are, in the order of the read, the names of the children whose name
does not start with "." and that are directories or files with the extension
".go"; there are as many nodes as such children, and no Label starts with
".".  The names are those a directory read returns (not empty, no separator),
and joining such a name to the directory keeps its extension. -/
theorem listing_labels (env : Env) (r : Request) (file : FileInfo) (files : List FileInfo)
    (hstat : env.Stat (targetOf env r) = .ok file)
    (hdir : file.IsDir = true)
    (hread : env.ReadDir (targetOf env r) = .ok files)
    (hnames : ∀ f ∈ files, ValidName f.Name)
    (hjoin : ∀ f ∈ files, HasPrefix f.Name "." = false →
      Ext (env.Join (targetOf env r) f.Name) = Ext f.Name) :
    ∃ nodes, gopathHandler env r = .Write nodes ∧
      nodes.map (fun n => n.Label) = (files.filter keptBySpec).map (fun f => f.Name) ∧
      nodes.length = (files.filter keptBySpec).length ∧
      ∀ n ∈ nodes, HasPrefix n.Label "." = false := by
  have hfilter : files.filter (keptEntry env (targetOf env r)) = files.filter keptBySpec := by
    apply List.filter_congr
    intro f hf
    exact keptEntry_eq_keptBySpec env _ f (hnames f hf) (hjoin f hf)
  refine ⟨_, gopathHandler_listing env r file files hstat (Or.inl hdir) hread, ?_, ?_, ?_⟩
  · rw [hfilter, List.map_map]
    rfl
  · rw [hfilter, List.length_map]
  · rw [hfilter]
    intro n hn
    obtain ⟨f, hf, rfl⟩ := List.mem_map.1 hn
    have hk := (List.mem_filter.1 hf).2
    simp only [keptBySpec, Bool.and_eq_true, Bool.not_eq_true'] at hk
    exact hk.1

/-- Witness of C5: the listing of `/go/src/app` in the sample workspace. -/
theorem listing_labels_witness :
    (∃ nodes, gopathHandler dirEnv ⟨"app", ""⟩ = .Write nodes ∧
      nodes.map (fun n => n.Label) =
        (([⟨".git", 4096, true⟩, ⟨"cmd", 4096, true⟩, ⟨"lib", 4096, true⟩,
          ⟨"docs", 4096, true⟩, ⟨"main.go", 120, false⟩, ⟨"README.md", 30, false⟩] :
            List FileInfo).filter keptBySpec).map (fun f => f.Name) ∧
      nodes.length =
        (([⟨".git", 4096, true⟩, ⟨"cmd", 4096, true⟩, ⟨"lib", 4096, true⟩,
          ⟨"docs", 4096, true⟩, ⟨"main.go", 120, false⟩, ⟨"README.md", 30, false⟩] :
            List FileInfo).filter keptBySpec).length ∧
      ∀ n ∈ nodes, HasPrefix n.Label "." = false) ∧
      (gopathHandler dirEnv ⟨"app", ""⟩).nodes.map (fun n => n.Label) =
        ["cmd", "lib", "docs", "main.go"] :=
  ⟨listing_labels dirEnv ⟨"app", ""⟩ ⟨"app", 4096, true⟩ _ rfl rfl rfl
      (by decide) (by decide),
    by decide⟩

/-! ## Receiver mode -/

theorem visitRecv_eq (receiver dir : String) (mfName : ast.Ident) (nodes : List node)
    (v : ast.Field) :
    visitRecv receiver dir mfName nodes v = nodes ++ recvEmit receiver dir mfName v := by
  unfold visitRecv recvEmit
  split <;> try simp
  split <;> simp

theorem visitMethod_eq (dir : String) (nodes : List node) (x : ast.Field) :
    visitMethod dir nodes x = nodes ++ methodEmit dir x := by
  unfold visitMethod methodEmit
  split <;> simp

theorem visit_eq (receiver dir : String) (nodes : List node) (n : ast.Node) :
    visit receiver dir nodes n = nodes ++ visitEmit receiver dir n := by
  cases n with
  | FuncDecl recv mfName children =>
    cases recv with
    | none => simp [visit, visitEmit]
    | some recv =>
      simp only [visit, visitEmit]
      exact foldl_append_list _ _ (visitRecv_eq receiver dir mfName) recv nodes
  | TypeSpec miName typ children =>
    cases typ with
    | InterfaceType methods =>
      simp only [visit, visitEmit]
      split
      · exact foldl_append_list _ _ (visitMethod_eq dir) methods nodes
      · simp
    | StructType => simp [visit, visitEmit]
    | Other => simp [visit, visitEmit]
  | Other children => simp [visit, visitEmit]

mutual
theorem Inspect_eq (receiver dir : String) :
    ∀ (n : ast.Node) (nodes : List node),
      Inspect receiver dir nodes n = nodes ++ emitted receiver dir n
  | .FuncDecl recv mfName children, nodes => by
    rw [Inspect, InspectList_eq receiver dir children, visit_eq, emitted, List.append_assoc]
  | .TypeSpec miName typ children, nodes => by
    rw [Inspect, InspectList_eq receiver dir children, visit_eq, emitted, List.append_assoc]
  | .Other children, nodes => by
    rw [Inspect, InspectList_eq receiver dir children, visit_eq, emitted]
    simp [visitEmit]
theorem InspectList_eq (receiver dir : String) :
    ∀ (cs : List ast.Node) (nodes : List node),
      InspectList receiver dir nodes cs = nodes ++ emittedList receiver dir cs
  | [], nodes => by simp [InspectList, emittedList]
  | c :: cs, nodes => by
    rw [InspectList, InspectList_eq receiver dir cs, Inspect_eq receiver dir c, emittedList,
      List.append_assoc]
end

/-- Receiver mode: the response of the handler. -/
theorem gopathHandler_receiver (env : Env) (r : Request) (file : FileInfo) (af : ast.File)
    (hstat : env.Stat (targetOf env r) = .ok file)
    (hreg : file.IsDir = false) (hext : Ext file.Name = ".go")
    (hparse : env.ParseFile (targetOf env r) = .ok af) (hname : r.name ≠ "") :
    gopathHandler env r = .Write (emitted r.name (targetOf env r) (.Other af.Decls)) := by
  simp [gopathHandler, hstat, hreg, hext, hparse, hname, Inspect_eq]

theorem isIfcNode_recvNode (dir : String) (mfName : ast.Ident) (v : ast.Field) :
    isIfcNode (recvNode dir mfName v) = false := by
  simp [isIfcNode, recvNode, HasPrefix, Sprintf, String.data_append]
  rfl

theorem isIfcNode_ifcNode (dir : String) (x : ast.Field) (mname : ast.Ident) :
    isIfcNode (ifcNode dir x mname) = true := by
  simp [isIfcNode, ifcNode, HasPrefix, Sprintf, String.data_append]

theorem hasPrefix_recvNode (dir : String) (mfName : ast.Ident) (v : ast.Field) :
    HasPrefix (recvNode dir mfName v).Label "<code>recv func</code>\n" = true := by
  simp [recvNode, HasPrefix, Sprintf, String.data_append]

theorem filter_recvEmit (receiver dir : String) (mfName : ast.Ident) (v : ast.Field) :
    (recvEmit receiver dir mfName v).filter isIfcNode = [] := by
  unfold recvEmit
  split
  · split
    · simp [isIfcNode_recvNode]
    · simp
  all_goals simp

theorem filter_methodEmit (dir : String) (x : ast.Field) :
    (methodEmit dir x).filter isIfcNode = methodEmit dir x := by
  unfold methodEmit
  split <;> simp [isIfcNode_ifcNode]

theorem filter_flatten_recvEmit (receiver dir : String) (mfName : ast.Ident)
    (recv : List ast.Field) :
    ((recv.map (recvEmit receiver dir mfName)).flatten).filter isIfcNode = [] := by
  induction recv with
  | nil => simp
  | cons v vs ih => simp [List.filter_append, filter_recvEmit, ih]

theorem filter_flatten_methodEmit (dir : String) (methods : List ast.Field) :
    ((methods.map (methodEmit dir)).flatten).filter isIfcNode =
      (methods.map (methodEmit dir)).flatten := by
  induction methods with
  | nil => simp
  | cons x xs ih => simp [List.filter_append, filter_methodEmit, ih]

theorem filter_visitEmit (receiver dir : String) (n : ast.Node) :
    (visitEmit receiver dir n).filter isIfcNode =
      ((declaredMembers receiver n).map (methodEmit dir)).flatten := by
  cases n with
  | FuncDecl recv mfName children =>
    cases recv with
    | none => simp [visitEmit, declaredMembers]
    | some recv =>
      simp only [visitEmit, declaredMembers]
      rw [filter_flatten_recvEmit]
      simp
  | TypeSpec miName typ children =>
    cases typ with
    | InterfaceType methods =>
      simp only [visitEmit, declaredMembers]
      split
      · exact filter_flatten_methodEmit dir methods
      · simp
    | StructType => simp [visitEmit, declaredMembers]
    | Other => simp [visitEmit, declaredMembers]
  | Other children => simp [visitEmit, declaredMembers]

mutual
theorem filter_emitted (receiver dir : String) :
    ∀ n : ast.Node, (emitted receiver dir n).filter isIfcNode =
      ((interfaceMembers receiver n).map (methodEmit dir)).flatten
  | .FuncDecl recv mfName children => by
    rw [emitted, interfaceMembers, List.filter_append, filter_visitEmit,
      filter_emittedList receiver dir children]
    simp
  | .TypeSpec miName typ children => by
    rw [emitted, interfaceMembers, List.filter_append, filter_visitEmit,
      filter_emittedList receiver dir children]
    simp
  | .Other children => by
    rw [emitted, interfaceMembers, filter_emittedList receiver dir children]
theorem filter_emittedList (receiver dir : String) :
    ∀ cs : List ast.Node, (emittedList receiver dir cs).filter isIfcNode =
      ((interfaceMembersList receiver cs).map (methodEmit dir)).flatten
  | [] => by simp [emittedList, interfaceMembersList]
  | c :: cs => by
    rw [emittedList, interfaceMembersList, List.filter_append, filter_emitted receiver dir c,
      filter_emittedList receiver dir cs]
    simp
end

theorem forall2_methodEmit (dir : String) (methods : List ast.Field) :
    List.Forall₂
      (fun x n =>
        n.Id = Sprint x.Pos ∧ n.Kind = "recvfunc" ∧
        ∃ m rest, x.Names = m :: rest ∧ n.Label = "<code>ifc func</code>\n" ++ m.Name)
      (methods.filter IsNamed) ((methods.map (methodEmit dir)).flatten) := by
  induction methods with
  | nil => simp
  | cons x xs ih =>
    cases hx : x.Names with
    | nil => simpa [List.filter_cons, IsNamed, methodEmit, hx] using ih
    | cons m rest =>
      have hn : IsNamed x = true := by simp [IsNamed, hx]
      simp only [List.filter_cons, hn, if_true, List.map_cons, List.flatten_cons, methodEmit,
        hx, List.singleton_append]
      refine List.Forall₂.cons ⟨rfl, rfl, m, rest, hx, ?_⟩ ih
      simp [ifcNode, Sprintf]

theorem visitEmit_cases (receiver dir : String) (n : ast.Node) :
    ∀ m ∈ visitEmit receiver dir n,
      isIfcNode m = true ∨ HasPrefix m.Label "<code>recv func</code>\n" = true := by
  intro m hm
  by_cases h : isIfcNode m = true
  · exact Or.inl h
  · right
    cases n with
    | FuncDecl recv mfName children =>
      cases recv with
      | none => simp [visitEmit] at hm
      | some recv =>
        simp only [visitEmit, List.mem_flatten, List.mem_map] at hm
        obtain ⟨l, ⟨v, -, rfl⟩, hml⟩ := hm
        unfold recvEmit at hml
        split at hml
        · split at hml
          · simp only [List.mem_singleton] at hml
            rw [hml]
            exact hasPrefix_recvNode _ _ _
          · simp at hml
        all_goals simp at hml
    | TypeSpec miName typ children =>
      have hf := filter_visitEmit receiver dir (.TypeSpec miName typ children)
      cases typ with
      | InterfaceType methods =>
        simp only [visitEmit] at hm hf
        split at hm
        · rw [← filter_flatten_methodEmit] at hm
          exact absurd (List.mem_filter.1 hm).2 h
        · simp at hm
      | StructType => simp [visitEmit] at hm
      | Other => simp [visitEmit] at hm
    | Other children => simp [visitEmit] at hm

mutual
theorem emitted_cases (receiver dir : String) :
    ∀ n : ast.Node, ∀ m ∈ emitted receiver dir n,
      isIfcNode m = true ∨ HasPrefix m.Label "<code>recv func</code>\n" = true
  | .FuncDecl recv mfName children => by
    intro m hm
    rw [emitted, List.mem_append] at hm
    rcases hm with hm | hm
    · exact visitEmit_cases receiver dir _ m hm
    · exact emittedList_cases receiver dir children m hm
  | .TypeSpec miName typ children => by
    intro m hm
    rw [emitted, List.mem_append] at hm
    rcases hm with hm | hm
    · exact visitEmit_cases receiver dir _ m hm
    · exact emittedList_cases receiver dir children m hm
  | .Other children => by
    intro m hm
    rw [emitted] at hm
    exact emittedList_cases receiver dir children m hm
theorem emittedList_cases (receiver dir : String) :
    ∀ cs : List ast.Node, ∀ m ∈ emittedList receiver dir cs,
      isIfcNode m = true ∨ HasPrefix m.Label "<code>recv func</code>\n" = true
  | [] => by simp [emittedList]
  | c :: cs => by
    intro m hm
    rw [emittedList, List.mem_append] at hm
    rcases hm with hm | hm
    · exact emitted_cases receiver dir c m hm
    · exact emittedList_cases receiver dir cs m hm
end

/-- C3: in receiver mode with the name R, the nodes of the response that
stand for interface members are, one for one and in source order, the
explicitly named members of the interface types declared under the name R
(the embedded members get none), whatever else the file declares; every other
node of the response is the node of a function with a receiver. -/
theorem receiver_interface_members (env : Env) (r : Request) (file : FileInfo)
    (af : ast.File)
    (hstat : env.Stat (targetOf env r) = .ok file)
    (hreg : file.IsDir = false) (hext : Ext file.Name = ".go")
    (hparse : env.ParseFile (targetOf env r) = .ok af) (hname : r.name ≠ "") :
    ∃ nodes, gopathHandler env r = .Write nodes ∧
      List.Forall₂
        (fun x n =>
          n.Id = Sprint x.Pos ∧ n.Kind = "recvfunc" ∧
          ∃ m rest, x.Names = m :: rest ∧ n.Label = "<code>ifc func</code>\n" ++ m.Name)
        ((interfaceMembers r.name (.Other af.Decls)).filter IsNamed)
        (nodes.filter isIfcNode) ∧
      ∀ n ∈ nodes, isIfcNode n = false →
        HasPrefix n.Label "<code>recv func</code>\n" = true := by
  refine ⟨_, gopathHandler_receiver env r file af hstat hreg hext hparse hname, ?_, ?_⟩
  · rw [filter_emitted]
    exact forall2_methodEmit _ _
  · intro n hn hi
    rcases emitted_cases r.name (targetOf env r) _ n hn with h | h
    · rw [h] at hi
      cases hi
    · exact h

/-- Witness of C3: the sample file with the interface `R` and a function
whose receiver is `*R`. -/
theorem receiver_interface_members_witness :
    (∃ nodes, gopathHandler (fileEnv (.ok ifcFile)) ⟨"app/a.go", "R"⟩ = .Write nodes ∧
      List.Forall₂
        (fun x n =>
          n.Id = Sprint x.Pos ∧ n.Kind = "recvfunc" ∧
          ∃ m rest, x.Names = m :: rest ∧ n.Label = "<code>ifc func</code>\n" ++ m.Name)
        ((interfaceMembers "R" (.Other ifcFile.Decls)).filter IsNamed)
        (nodes.filter isIfcNode) ∧
      ∀ n ∈ nodes, isIfcNode n = false →
        HasPrefix n.Label "<code>recv func</code>\n" = true) ∧
      (gopathHandler (fileEnv (.ok ifcFile)) ⟨"app/a.go", "R"⟩).nodes.map
          (fun n => (n.Id, n.Label)) =
        [("58", "<code>ifc func</code>\nA"), ("63", "<code>ifc func</code>\nB"),
          ("97", "<code>recv func</code>\nN")] :=
  ⟨receiver_interface_members (fileEnv (.ok ifcFile)) ⟨"app/a.go", "R"⟩ ⟨"a.go", 80, false⟩
    ifcFile rfl rfl (by decide) rfl (by decide), by decide⟩

/-! ## The decimal numeral of a position -/

theorem toDigitsCore_eq (fuel : Nat) :
    ∀ (n : Nat) (ds : List Char), 0 < n → n < fuel →
      Nat.toDigitsCore 10 fuel n ds = (Nat.digits 10 n).reverse.map Nat.digitChar ++ ds := by
  induction fuel with
  | zero => intro n ds _ hf; omega
  | succ fuel ih =>
    intro n ds hn hf
    rw [Nat.digits_def' (by norm_num) hn]
    simp only [Nat.toDigitsCore]
    by_cases h : n / 10 = 0
    · simp [h]
    · rw [if_neg h, ih (n / 10) _ (Nat.pos_of_ne_zero h) (by omega)]
      simp

theorem Sprint_spec (n : Nat) :
    ∃ ds : List Nat, (∀ d ∈ ds, d < 10) ∧ Nat.ofDigits 10 ds.reverse = n ∧
      (Sprint n).data = ds.map Nat.digitChar := by
  rcases Nat.eq_zero_or_pos n with rfl | hn
  · exact ⟨[0], by simp, by simp [Nat.ofDigits], rfl⟩
  · refine ⟨(Nat.digits 10 n).reverse, ?_, ?_, ?_⟩
    · intro d hd
      exact Nat.digits_lt_base (by norm_num) (List.mem_reverse.1 hd)
    · rw [List.reverse_reverse, Nat.ofDigits_digits]
    · simp [Sprint, Nat.repr, Nat.toDigits, List.asString, toDigitsCore_eq _ n [] hn]

theorem digitChar_injOn : ∀ a < 10, ∀ b < 10, Nat.digitChar a = Nat.digitChar b → a = b := by
  decide

theorem map_digitChar_inj :
    ∀ l₁ l₂ : List Nat, (∀ d ∈ l₁, d < 10) → (∀ d ∈ l₂, d < 10) →
      l₁.map Nat.digitChar = l₂.map Nat.digitChar → l₁ = l₂
  | [], [], _, _, _ => rfl
  | [], _ :: _, _, _, h => by simp at h
  | _ :: _, [], _, _, h => by simp at h
  | a :: l₁, b :: l₂, h₁, h₂, h => by
    simp only [List.map_cons, List.cons.injEq] at h
    have hab := digitChar_injOn a (h₁ a (by simp)) b (h₂ b (by simp)) h.1
    have hl := map_digitChar_inj l₁ l₂ (fun d hd => h₁ d (by simp [hd]))
      (fun d hd => h₂ d (by simp [hd])) h.2
    rw [hab, hl]

theorem Sprint_injective : Function.Injective Sprint := by
  intro a b h
  obtain ⟨da, hda, hoa, hsa⟩ := Sprint_spec a
  obtain ⟨db, hdb, hob, hsb⟩ := Sprint_spec b
  have : da = db := map_digitChar_inj da db hda hdb (by rw [← hsa, ← hsb, h])
  rw [← hoa, ← hob, this]

theorem digitChar_not_quote :
    ∀ d < 10, (Nat.digitChar d == Char.ofNat 34 || Nat.digitChar d == Char.ofNat 96) = false := by
  decide

theorem Sprint_not_stringLit (n : Nat) : IsStringLit (Sprint n) = false := by
  obtain ⟨ds, hds, -, hs⟩ := Sprint_spec n
  unfold IsStringLit
  rw [hs]
  cases ds with
  | nil => rfl
  | cons d ds => exact digitChar_not_quote d (hds d (by simp))

/-! ## Identity of the nodes -/

theorem recvEmit_ids (receiver dir : String) (mfName : ast.Ident) (v : ast.Field) :
    ((recvEmit receiver dir mfName v).map (fun n => n.Id)).Sublist [Sprint v.Pos] := by
  unfold recvEmit
  split
  · split
    · simp [recvNode]
    · simp
  all_goals simp

theorem methodEmit_ids (dir : String) (x : ast.Field) :
    ((methodEmit dir x).map (fun n => n.Id)).Sublist [Sprint x.Pos] := by
  unfold methodEmit
  split <;> simp [ifcNode]

theorem flatten_ids (h : ast.Field → List node)
    (hh : ∀ v, ((h v).map (fun n => n.Id)).Sublist [Sprint v.Pos]) (fields : List ast.Field) :
    (((fields.map h).flatten).map (fun n => n.Id)).Sublist
      (fields.map (fun v => Sprint v.Pos)) := by
  induction fields with
  | nil => simp
  | cons v vs ih =>
    simp only [List.map_cons, List.flatten_cons, List.map_append]
    exact (hh v).append ih

theorem visitEmit_ids (receiver dir : String) (n : ast.Node) :
    ((visitEmit receiver dir n).map (fun m => m.Id)).Sublist
      ((ownFields n).map (fun v => Sprint v.Pos)) := by
  cases n with
  | FuncDecl recv mfName children =>
    cases recv with
    | none => simp [visitEmit, ownFields]
    | some recv => exact flatten_ids _ (recvEmit_ids receiver dir mfName) recv
  | TypeSpec miName typ children =>
    cases typ with
    | InterfaceType methods =>
      simp only [visitEmit, ownFields]
      split
      · exact flatten_ids _ (methodEmit_ids dir) methods
      · simp
    | StructType => simp [visitEmit, ownFields]
    | Other => simp [visitEmit, ownFields]
  | Other children => simp [visitEmit, ownFields]

mutual
theorem emitted_ids (receiver dir : String) :
    ∀ n : ast.Node, ((emitted receiver dir n).map (fun m => m.Id)).Sublist
      ((fieldsOf n).map (fun v => Sprint v.Pos))
  | .FuncDecl recv mfName children => by
    rw [emitted, fieldsOf, List.map_append, List.map_append]
    exact (visitEmit_ids receiver dir _).append (emittedList_ids receiver dir children)
  | .TypeSpec miName typ children => by
    rw [emitted, fieldsOf, List.map_append, List.map_append]
    exact (visitEmit_ids receiver dir _).append (emittedList_ids receiver dir children)
  | .Other children => by
    rw [emitted, fieldsOf]
    exact emittedList_ids receiver dir children
theorem emittedList_ids (receiver dir : String) :
    ∀ cs : List ast.Node, ((emittedList receiver dir cs).map (fun m => m.Id)).Sublist
      ((fieldsOfList cs).map (fun v => Sprint v.Pos))
  | [] => by simp [emittedList, fieldsOfList]
  | c :: cs => by
    rw [emittedList, fieldsOfList, List.map_append, List.map_append]
    exact (emitted_ids receiver dir c).append (emittedList_ids receiver dir cs)
end

theorem receiver_ids_nodup (receiver dir : String) (af : ast.File) (hwf : WellFormed af) :
    ((emitted receiver dir (.Other af.Decls)).map (fun n => n.Id)).Nodup := by
  refine List.Nodup.sublist (emitted_ids receiver dir (.Other af.Decls)) ?_
  rw [fieldsOf]
  have := List.Nodup.map Sprint_injective hwf.fieldPos
  simpa [List.map_map] using this

theorem extraction_ids_nodup (dir loc : String) (af : ast.File) (hwf : WellFormed af)
    (himports : (af.Imports.map (fun i => i.Path.Value)).Nodup) :
    ((af.Scope.Objects.map (declNode dir loc) ++ af.Imports.map (importNode dir loc)).map
      (fun n => n.Id)).Nodup := by
  rw [List.map_append, List.map_map, List.map_map, List.nodup_append]
  refine ⟨?_, ?_, ?_⟩
  · have := List.Nodup.map Sprint_injective hwf.objectPos
    simpa [List.map_map] using this
  · exact himports
  · intro id h₁ h₂
    obtain ⟨v, -, rfl⟩ := List.mem_map.1 h₁
    obtain ⟨i, hi, hid⟩ := List.mem_map.1 h₂
    have hq := hwf.pathLit i hi
    simp only [Function.comp, importNode, declNode] at hid
    rw [hid, Sprint_not_stringLit] at hq
    cases hq

theorem listing_ids_nodup (env : Env) (dirSrc dir : String) (files : List FileInfo)
    (hpaths : (files.map (fun f => env.Join dir f.Name)).Nodup) :
    (((files.filter (keptEntry env dir)).map (entryNode env dirSrc dir)).map
      (fun n => n.Id)).Nodup := by
  rw [List.map_map]
  exact List.Nodup.sublist (List.Sublist.map _ (List.filter_sublist _)) hpaths

/-- C7 (amended): in a response that succeeds (directory listing, extraction
mode or receiver mode) no two nodes have the same Id, provided that in
extraction mode, and only there, the import paths of the parsed file are
pairwise distinct; the children of a directory have pairwise distinct paths,
and the parsed file is as the parser makes it (distinct positions, import
paths that are string literals). -/
theorem ids_unique (env : Env) (r : Request) (nodes : List node)
    (hresp : gopathHandler env r = .Write nodes)
    (hpaths : ∀ files, env.ReadDir (targetOf env r) = .ok files →
      (files.map (fun f => env.Join (targetOf env r) f.Name)).Nodup)
    (hwf : ∀ af, env.ParseFile (targetOf env r) = .ok af → WellFormed af)
    (himports : ∀ af, env.ParseFile (targetOf env r) = .ok af → r.name = "" →
      (af.Imports.map (fun i => i.Path.Value)).Nodup) :
    (nodes.map (fun n => n.Id)).Nodup := by
  cases hstat : env.Stat (targetOf env r) with
  | error err => simp [gopathHandler, hstat] at hresp
  | ok file =>
    by_cases hb : file.IsDir = false ∧ Ext file.Name = ".go"
    · cases hparse : env.ParseFile (targetOf env r) with
      | error err => simp [gopathHandler, hstat, hb.1, hb.2, hparse] at hresp
      | ok af =>
        by_cases hname : r.name = ""
        · rw [gopathHandler_extraction env r file af hstat hb.1 hb.2 hparse hname] at hresp
          cases hresp
          exact extraction_ids_nodup _ _ af (hwf af hparse) (himports af hparse hname)
        · rw [gopathHandler_receiver env r file af hstat hb.1 hb.2 hparse hname] at hresp
          cases hresp
          exact receiver_ids_nodup _ _ af (hwf af hparse)
    · have hbranch : file.IsDir = true ∨ Ext file.Name ≠ ".go" := by
        by_cases hd : file.IsDir = true
        · exact Or.inl hd
        · right
          intro he
          exact hb ⟨by simpa using hd, he⟩
      cases hread : env.ReadDir (targetOf env r) with
      | error err =>
        have hb2 : (!file.IsDir && Ext file.Name == ".go") = false := by
          rcases hbranch with h | h
          · simp [h]
          · simp [h]
        simp [gopathHandler, hstat, hb2, hread] at hresp
      | ok files =>
        rw [gopathHandler_listing env r file files hstat hbranch hread] at hresp
        cases hresp
        exact listing_ids_nodup env _ _ files (hpaths files hread)

theorem orderFile_wellFormed : WellFormed orderFile :=
  ⟨by decide, by decide, by decide⟩

/-- Witness of C7 (amended), one request of each mode: the extraction of the
sample file with two scope objects and one import; receiver mode on a file
that imports "fmt" under two names, where the import paths need not be
distinct; the listing of `/go/src/app` in the sample workspace. -/
theorem ids_unique_witness :
    ((gopathHandler (fileEnv (.ok orderFile)) ⟨"app/a.go", ""⟩).nodes.map
        (fun n => n.Id) = ["48", "33", "\"fmt\""] ∧
      ((gopathHandler (fileEnv (.ok orderFile)) ⟨"app/a.go", ""⟩).nodes.map
        (fun n => n.Id)).Nodup) ∧
    (¬ (twiceRecvFile.Imports.map (fun i => i.Path.Value)).Nodup ∧
      (gopathHandler (fileEnv (.ok twiceRecvFile)) ⟨"app/a.go", "T"⟩).nodes.map
        (fun n => n.Id) = ["65"] ∧
      ((gopathHandler (fileEnv (.ok twiceRecvFile)) ⟨"app/a.go", "T"⟩).nodes.map
        (fun n => n.Id)).Nodup) ∧
    ((gopathHandler dirEnv ⟨"app", ""⟩).nodes.map (fun n => n.Id) =
        ["/go/src/app/cmd", "/go/src/app/lib", "/go/src/app/docs", "/go/src/app/main.go"] ∧
      ((gopathHandler dirEnv ⟨"app", ""⟩).nodes.map (fun n => n.Id)).Nodup) :=
  ⟨⟨by decide,
      ids_unique (fileEnv (.ok orderFile)) ⟨"app/a.go", ""⟩ _ rfl
        (fun _ h => nomatch h)
        (fun af h => by cases h; exact orderFile_wellFormed)
        (fun af h _ => by cases h; decide)⟩,
    ⟨by decide, by decide,
      ids_unique (fileEnv (.ok twiceRecvFile)) ⟨"app/a.go", "T"⟩ _ rfl
        (fun _ h => nomatch h)
        (fun af h => by cases h; exact ⟨by decide, by decide, by decide⟩)
        (fun af _ hname => absurd hname (by decide))⟩,
    ⟨by decide,
      ids_unique dirEnv ⟨"app", ""⟩ _ rfl
        (fun files h => by cases h; decide)
        (fun _ h => nomatch h)
        (fun _ h => nomatch h)⟩⟩

/-- Counterexample to C7: a file that imports "fmt" under two names is as the
parser makes it, and both import nodes of the response have the Id `"fmt"`. -/
theorem duplicate_import_counterexample :
    WellFormed twiceFile ∧
      ∃ nodes, gopathHandler (fileEnv (.ok twiceFile)) ⟨"app/a.go", ""⟩ = .Write nodes ∧
        nodes.map (fun n => n.Id) = ["\"fmt\"", "\"fmt\""] ∧
        ¬ (nodes.map (fun n => n.Id)).Nodup := by
  refine ⟨⟨by decide, by decide, by decide⟩, _, rfl, by decide, by decide⟩

end GoExplorer
